import Mathlib

set_option maxRecDepth 8000

/-!
Shallow embedding of the ground-truth synthesis engine of the
VesicleGTLabelling repository (file src/groundtruth.py), together with
theorems settling the specification claims about it.

Modelling conventions:
* numpy 3D arrays become `Vol`: a (z, y, x) shape plus a total voxel
  function; only indices below the shape are meaningful.
* real arithmetic (numpy float64) is modelled with exact rationals;
* Python integer floor division by 2 is Lean `Int` division (both round
  toward minus infinity for the positive divisor 2);
* library calls (skimage, scipy) are modelled from their documented
  semantics, as noted at each definition;
* the in-place mutation of `self.balls` and of the output array becomes
  explicit state passing, and the numpy IndexError raised by a
  mismatched boolean-mask assignment becomes `Except.error`.
-/

/-- A 3D integer volume: a (z, y, x) shape together with voxel data given
as a total function; indices at or beyond the shape are ignored by every
operation. -/
structure Vol where
  shape : ℕ × ℕ × ℕ
  data : ℕ × ℕ × ℕ → ℤ

/-- Row-major (z, y, x) list of all in-bounds indices of a shape. -/
def indicesOf (sh : ℕ × ℕ × ℕ) : List (ℕ × ℕ × ℕ) :=
  (List.range sh.1).flatMap fun z =>
    (List.range sh.2.1).flatMap fun y =>
      (List.range sh.2.2).map fun x => (z, y, x)

/-- Kernel-shape computation of GroundTruth.__init__ (groundtruth.py lines
100-101): np.ceil of the elementwise quotient of the diameter vector
[d, d, d] by the per-axis voxel size. The float entries produced by
np.ceil are integral, so they are carried as integers. -/
def kernelShape (diameter : ℚ) (resolution : ℚ × ℚ × ℚ) : ℤ × ℤ × ℤ :=
  (⌈diameter / resolution.1⌉, ⌈diameter / resolution.2.1⌉, ⌈diameter / resolution.2.2⌉)

/-- State of a GroundTruth object (groundtruth.py lines 90-101). The
`balls` dictionary is modelled as an association list from the integer
kernel-shape tuple to the cached boolean mask. -/
structure GroundTruth where
  pos_data : Vol
  neg_data : Vol
  voxel_size : ℚ × ℚ × ℚ
  offset : ℤ × ℤ × ℤ
  background_label : ℤ
  num_classes : ℕ
  axes : List Char
  balls : List ((ℤ × ℤ × ℤ) × ((ℕ × ℕ × ℕ) → Bool))
  min_distance : ℕ
  kernel_shape : ℤ × ℤ × ℤ

/-- GroundTruth.__init__ with the default optional arguments. The source
raises no exception here: whatever kernel shape results from the ceil
formula is stored as is. -/
def mkGroundTruth (pos neg : Vol) (vesicle_diameter : ℚ)
    (resolution : ℚ × ℚ × ℚ) (min_distance : ℕ) : GroundTruth :=
  { pos_data := pos
    neg_data := neg
    voxel_size := resolution
    offset := (0, 0, 0)
    background_label := 0
    num_classes := 3
    axes := ['z', 'y', 'x']
    balls := []
    min_distance := min_distance
    kernel_shape := kernelShape vesicle_diameter resolution }

/-! ### The reference sphere and its resampled masks (skimage models) -/

/-- skimage.morphology.ball(100): a boolean array of shape 201 cubed whose
True voxels are those at squared euclidean distance at most 100 squared
from the center voxel (100, 100, 100). Indices are taken in ℤ so the same
definition serves resampled reads. -/
def ball100 (p : ℤ × ℤ × ℤ) : Bool :=
  decide ((p.1 - 100) ^ 2 + (p.2.1 - 100) ^ 2 + (p.2.2 - 100) ^ 2 ≤ 10000)

/-- Coordinate mapping of skimage.transform.resize from an output index to
the source grid of length nIn: pixel centers are aligned, so output index
i maps to (i + 1/2) * nIn / nOut - 1/2. -/
def srcCoord (nIn nOut : ℕ) (i : ℕ) : ℚ :=
  ((i : ℚ) + 1 / 2) * nIn / nOut - 1 / 2

/-- Nearest source index for order-0 (nearest neighbour) resampling from a
length-201 axis, clamped to the valid range 0..200. -/
def nearestSrc (nOut : ℕ) (i : ℕ) : ℤ :=
  max 0 (min 200 ⌊srcCoord 201 nOut i + 1 / 2⌋)

/-- Order-0 resize of ball100 to the given shape: models
skimage.transform.resize(ball, shape, order=0, anti_aliasing=False)
followed by the bool cast (groundtruth.py lines 153-159). -/
def resize0 (sh : ℕ × ℕ × ℕ) (p : ℕ × ℕ × ℕ) : Bool :=
  ball100 (nearestSrc sh.1 p.1, nearestSrc sh.2.1 p.2.1, nearestSrc sh.2.2 p.2.2)

/-- The boolean ball drawn by draw_ball for an integer kernel-shape key.
Negative entries cannot produce a mask in the source (resize would fail),
so they are clamped to zero-length axes here. -/
def boolBall (k : ℤ × ℤ × ℤ) : ℕ × ℕ × ℕ → Bool :=
  resize0 (k.1.toNat, k.2.1.toNat, k.2.2.toNat)

/-- Association-list lookup for the balls dictionary. -/
def lookupBall : List ((ℤ × ℤ × ℤ) × ((ℕ × ℕ × ℕ) → Bool)) → ℤ × ℤ × ℤ →
    Option ((ℕ × ℕ × ℕ) → Bool)
  | [], _ => none
  | e :: rest, k => if e.1 = k then some e.2 else lookupBall rest k

/-- The cache step at the start of draw_ball (groundtruth.py lines
151-164): on a hit return the stored mask and leave the dictionary alone;
on a miss build the mask and insert it under the kernel-shape key. -/
def getBall (balls : List ((ℤ × ℤ × ℤ) × ((ℕ × ℕ × ℕ) → Bool)))
    (k : ℤ × ℤ × ℤ) : ((ℕ × ℕ × ℕ) → Bool) × List ((ℤ × ℤ × ℤ) × ((ℕ × ℕ × ℕ) → Bool)) :=
  match lookupBall balls k with
  | some b => (b, balls)
  | none => (boolBall k, (k, boolBall k) :: balls)

/-- Invariant of the balls dictionary: every stored mask is the boolean
ball of its key. Holds at construction (empty dictionary) and is kept by
every cache step. -/
def cacheInv (balls : List ((ℤ × ℤ × ℤ) × ((ℕ × ℕ × ℕ) → Bool))) : Prop :=
  ∀ e ∈ balls, e.2 = boolBall e.1

/-! ### Boundary-clipped stamping (draw_ball) -/

/-- Resolution of one Python slice endpoint over an axis of length n:
negative values count from the end, and the result is clamped to 0..n. -/
def resolveIdx (i : ℤ) (n : ℕ) : ℕ :=
  if i < 0 then ((n : ℤ) + i).toNat else min i.toNat n

/-- Resolved index ranges for one axis of draw_ball: a0..a1 is the
half-open range selected in the target array, b0..b1 the matching range in
the ball mask. -/
structure AxisClip where
  a0 : ℕ
  a1 : ℕ
  b0 : ℕ
  b1 : ℕ

/-- One iteration of the clipping loop of draw_ball (groundtruth.py lines
167-189), for a single axis: loc is the centre coordinate, d the kernel
extent on this axis (also the ball-mask extent), B the array extent. The
slice endpoints are computed exactly as in the source, including the
negative stop index produced when the sphere ends past a boundary, then
resolved with Python slice semantics. -/
def clipAxis (loc d : ℤ) (B : ℕ) : AxisClip :=
  { a0 := resolveIdx (if loc - d / 2 < 0 then 0 else loc - d / 2) B
    a1 := resolveIdx (if loc - d / 2 + d > (B : ℤ) then (B : ℤ) else loc - d / 2 + d) B
    b0 := resolveIdx (if loc - d / 2 < 0 then -(loc - d / 2) else 0) d.toNat
    b1 := resolveIdx (if loc - d / 2 + d > (B : ℤ) then (B : ℤ) - (loc - d / 2 + d) else d) d.toNat }

/-- Number of selected voxels of the array range of a clip. -/
def lenA (c : AxisClip) : ℕ := c.a1 - c.a0

/-- Number of selected voxels of the ball range of a clip. -/
def lenB (c : AxisClip) : ℕ := c.b1 - c.b0

/-- Whether an array index lies in the selected range of a clip. -/
def inClip (c : AxisClip) (i : ℕ) : Bool :=
  decide (c.a0 ≤ i) && decide (i < c.a1)

/-- Ball-mask index corresponding to an array index under a clip. -/
def ballIdxAt (c : AxisClip) (i : ℕ) : ℕ := c.b0 + (i - c.a0)

/-- The voxels written by the masked assignment view[sliced_ball] = label,
for a given ball mask and per-axis clips. -/
def coversWith (ball : ℕ × ℕ × ℕ → Bool) (cz cy cx : AxisClip) (p : ℕ × ℕ × ℕ) : Bool :=
  inClip cz p.1 && inClip cy p.2.1 && inClip cx p.2.2 &&
    ball (ballIdxAt cz p.1, ballIdxAt cy p.2.1, ballIdxAt cx p.2.2)

/-- The voxels covered by the clipped boolean ball of kernel shape ksh
stamped at loc into an array of shape ash. -/
def covers (ksh : ℤ × ℤ × ℤ) (ash : ℕ × ℕ × ℕ) (loc : ℤ × ℤ × ℤ) (p : ℕ × ℕ × ℕ) : Bool :=
  coversWith (boolBall ksh)
    (clipAxis loc.1 ksh.1 ash.1) (clipAxis loc.2.1 ksh.2.1 ash.2.1)
    (clipAxis loc.2.2 ksh.2.2 ash.2.2) p

/-- GroundTruth.draw_ball (groundtruth.py lines 146-192). Returns the
written array, or an error when the resolved view and mask ranges differ
in extent on some axis, which is the numpy IndexError of the boolean-mask
assignment; in both cases the possibly grown ball cache is returned,
because the dictionary insert precedes the assignment in the source. -/
def drawBall (g : GroundTruth) (array : Vol) (location : ℤ × ℤ × ℤ) (label : ℤ) :
    Except Unit Vol × GroundTruth :=
  let diameter := g.kernel_shape
  let bp := getBall g.balls diameter
  let g2 := { g with balls := bp.2 }
  let cz := clipAxis location.1 diameter.1 array.shape.1
  let cy := clipAxis location.2.1 diameter.2.1 array.shape.2.1
  let cx := clipAxis location.2.2 diameter.2.2 array.shape.2.2
  if lenA cz = lenB cz ∧ lenA cy = lenB cy ∧ lenA cx = lenB cx then
    (Except.ok ⟨array.shape,
      fun p => if coversWith bp.1 cz cy cx p then label else array.data p⟩, g2)
  else
    (Except.error (), g2)

/-! ### Centre detection (find_centres) -/

/-- Linear interpolation of a grid function at a rational coordinate,
written with the floor-based weight used by order-1 spline resampling. -/
def interp1 (f : ℤ → ℚ) (x : ℚ) : ℚ :=
  (1 - (x - ⌊x⌋)) * f ⌊x⌋ + (x - ⌊x⌋) * f (⌊x⌋ + 1)

/-- ball100 as a 0/1 rational field, the float64 cast of the reference
sphere. -/
def ball100Q (p : ℤ × ℤ × ℤ) : ℚ :=
  if ball100 p then 1 else 0

/-- The float convolution kernel of find_centres (groundtruth.py lines
119-120): skimage.transform.resize of ball(100).astype(float64) to the
kernel shape, modelled as order-1 (trilinear) interpolation at the
pixel-center-aligned coordinates. The Gaussian pre-smoothing skimage adds
when downsampling is not modelled; no theorem evaluates this kernel except
at shape (201, 201, 201), where resize is the identity and the model is
exact. -/
def floatKernel (sh : ℕ × ℕ × ℕ) (j : ℕ × ℕ × ℕ) : ℚ :=
  interp1 (fun z =>
      interp1 (fun y =>
          interp1 (fun x => ball100Q (z, y, x)) (srcCoord 201 sh.2.2 j.2.2))
        (srcCoord 201 sh.2.1 j.2.1))
    (srcCoord 201 sh.1 j.1)

/-- Index reflection of scipy.ndimage boundary mode reflect (the default
of scipy.ndimage.convolve): the sequence a b c d extends as
d c b a | a b c d | d c b a, with period 2n. -/
def reflectIdx (n : ℕ) (i : ℤ) : ℕ :=
  if n = 0 then 0 else
    let m := i % (2 * (n : ℤ))
    if m < (n : ℤ) then m.toNat else (2 * (n : ℤ) - 1 - m).toNat

/-- Reflection applied to all three axes. -/
def reflect3 (sh : ℕ × ℕ × ℕ) (q : ℤ × ℤ × ℤ) : ℕ × ℕ × ℕ :=
  (reflectIdx sh.1 q.1, reflectIdx sh.2.1 q.2.1, reflectIdx sh.2.2 q.2.2)

/-- Source position read by the convolution for output voxel p and kernel
index j: the kernel is centred, so axis a reads p + ksh/2 - j. This is the
scipy.ndimage.convolve alignment for odd kernel extents; the one-voxel
origin shift scipy applies on even extents is not modelled, and no theorem
evaluates the convolution at an even extent. -/
def readPos (p : ℕ × ℕ × ℕ) (ksh : ℕ × ℕ × ℕ) (j : ℕ × ℕ × ℕ) : ℤ × ℤ × ℤ :=
  ((p.1 : ℤ) + (ksh.1 / 2 : ℕ) - j.1,
   (p.2.1 : ℤ) + (ksh.2.1 / 2 : ℕ) - j.2.1,
   (p.2.2 : ℤ) + (ksh.2.2 / 2 : ℕ) - j.2.2)

/-- All kernel indices as a finite set. -/
def kernelIdx (sh : ℕ × ℕ × ℕ) : Finset (ℕ × ℕ × ℕ) :=
  Finset.range sh.1 ×ˢ (Finset.range sh.2.1 ×ˢ Finset.range sh.2.2)

/-- scipy.ndimage.convolve with the default boundary mode reflect, as
called at groundtruth.py line 123: same-shape output, out-of-range reads
reflected back into the array. -/
def convolveReflect (sh : ℕ × ℕ × ℕ) (img : ℕ × ℕ × ℕ → ℚ)
    (ksh : ℕ × ℕ × ℕ) (k : ℕ × ℕ × ℕ → ℚ) (p : ℕ × ℕ × ℕ) : ℚ :=
  ∑ j ∈ kernelIdx ksh, k j * img (reflect3 sh (readPos p ksh j))

/-- Modelled from the spec: the convolution with zero-padding boundary
handling that section 4.2 step (b) describes, stated only to be compared
with the convolution the source performs. Out-of-range reads give 0
instead of being reflected. -/
def convolveZeroPad (sh : ℕ × ℕ × ℕ) (img : ℕ × ℕ × ℕ → ℚ)
    (ksh : ℕ × ℕ × ℕ) (k : ℕ × ℕ × ℕ → ℚ) (p : ℕ × ℕ × ℕ) : ℚ :=
  ∑ j ∈ kernelIdx ksh, k j *
    (if 0 ≤ (readPos p ksh j).1 ∧ (readPos p ksh j).1 < (sh.1 : ℤ)
        ∧ 0 ≤ (readPos p ksh j).2.1 ∧ (readPos p ksh j).2.1 < (sh.2.1 : ℤ)
        ∧ 0 ≤ (readPos p ksh j).2.2 ∧ (readPos p ksh j).2.2 < (sh.2.2 : ℤ) then
      img ((readPos p ksh j).1.toNat, (readPos p ksh j).2.1.toNat, (readPos p ksh j).2.2.toNat)
    else 0)

/-- Chebyshev distance between two voxel indices is at most r. -/
def chebLe (r : ℕ) (p q : ℕ × ℕ × ℕ) : Bool :=
  decide (((p.1 : ℤ) - q.1).natAbs ≤ r) &&
  decide (((p.2.1 : ℤ) - q.2.1).natAbs ≤ r) &&
  decide (((p.2.2 : ℤ) - q.2.2).natAbs ≤ r)

/-- Row-major encoding of a voxel index, used to pick a canonical
representative of a connected component. -/
def encodeIdx (sh : ℕ × ℕ × ℕ) (p : ℕ × ℕ × ℕ) : ℕ :=
  (p.1 * sh.2.1 + p.2.1) * sh.2.2 + p.2.2

/-- Number of voxels of a shape. -/
def volCount (sh : ℕ × ℕ × ℕ) : ℕ := sh.1 * sh.2.1 * sh.2.2

/-- One growth step of the connected-component closure: add every
in-bounds nonzero voxel adjacent (26-connectivity) to the current set. -/
def growOnce (sh : ℕ × ℕ × ℕ) (data : ℕ × ℕ × ℕ → ℤ)
    (s : List (ℕ × ℕ × ℕ)) : List (ℕ × ℕ × ℕ) :=
  s ++ (indicesOf sh).filter fun q =>
    decide (q ∉ s) && decide (data q ≠ 0) && s.any fun p => chebLe 1 p q

/-- Voxels reachable from p through nonzero voxels, computed by iterating
the growth step once per voxel of the grid. -/
def reachSet (sh : ℕ × ℕ × ℕ) (data : ℕ × ℕ × ℕ → ℤ) (p : ℕ × ℕ × ℕ) :
    List (ℕ × ℕ × ℕ) :=
  (growOnce sh data)^[volCount sh] [p]

/-- Canonical representative of the component of p: the least row-major
code among the reachable voxels. -/
def compRep (sh : ℕ × ℕ × ℕ) (data : ℕ × ℕ × ℕ → ℤ) (p : ℕ × ℕ × ℕ) : ℕ :=
  ((reachSet sh data p).map (encodeIdx sh)).foldl min (encodeIdx sh p)

/-- skimage.measure.label as used at groundtruth.py line 129: background
voxels (value 0) get label 0, every nonzero voxel gets the positive label
of its 26-connected component. Labels are made positive by adding one to
the component representative; only the support and the equality pattern of
this labelling are ever used by the theorems. -/
def measureLabel (sh : ℕ × ℕ × ℕ) (data : ℕ × ℕ × ℕ → ℤ) (p : ℕ × ℕ × ℕ) : ℕ :=
  if data p = 0 then 0 else compRep sh data p + 1

/-- Peak predicate of skimage.feature.peak_local_max with a labels array:
the voxel must lie in a nonzero labelled region and its image value must
be maximal among the voxels of the same label within Chebyshev distance
min_distance. The intensity threshold and border handling details of
skimage are not modelled; no theorem depends on which in-bounds
nonzero-labelled voxels are selected. -/
def isPeak (sh : ℕ × ℕ × ℕ) (img : ℕ × ℕ × ℕ → ℚ) (minDist : ℕ)
    (lbls : ℕ × ℕ × ℕ → ℕ) (p : ℕ × ℕ × ℕ) : Bool :=
  decide (lbls p ≠ 0) &&
    (indicesOf sh).all fun q =>
      if lbls q = lbls p ∧ chebLe minDist p q = true then decide (img q ≤ img p) else true

/-- Insertion into a list sorted by decreasing image value. -/
def insertDesc (img : ℕ × ℕ × ℕ → ℚ) (c : ℕ × ℕ × ℕ) :
    List (ℕ × ℕ × ℕ) → List (ℕ × ℕ × ℕ)
  | [] => [c]
  | x :: xs => if img x < img c then c :: x :: xs else x :: insertDesc img c xs

/-- Stable sort by decreasing image value, the order in which
peak_local_max reports coordinates. -/
def sortDesc (img : ℕ × ℕ × ℕ → ℚ) (l : List (ℕ × ℕ × ℕ)) : List (ℕ × ℕ × ℕ) :=
  l.foldr (insertDesc img) []

/-- skimage.feature.peak_local_max as called at groundtruth.py lines
126-130: in-bounds peak voxels of nonzero labelled regions, reported in
decreasing image-value order. -/
def peakLocalMax (sh : ℕ × ℕ × ℕ) (img : ℕ × ℕ × ℕ → ℚ) (minDist : ℕ)
    (lbls : ℕ × ℕ × ℕ → ℕ) : List (ℕ × ℕ × ℕ) :=
  sortDesc img ((indicesOf sh).filter (isPeak sh img minDist lbls))

/-- Clamp of the integer kernel shape to natural numbers, the shape handed
to the library resampling and convolution calls. -/
def kshNat (g : GroundTruth) : ℕ × ℕ × ℕ :=
  (g.kernel_shape.1.toNat, g.kernel_shape.2.1.toNat, g.kernel_shape.2.2.toNat)

/-- The convolved volume computed inside find_centres (groundtruth.py
lines 119-123): the data, first multiplied elementwise by 5, convolved
with the float spherical kernel under the default reflect boundary mode of
scipy.ndimage.convolve. -/
def findCentresConvolved (g : GroundTruth) (data : Vol) : ℕ × ℕ × ℕ → ℚ :=
  convolveReflect data.shape (fun p => 5 * (data.data p : ℚ)) (kshNat g)
    (floatKernel (kshNat g))

/-- GroundTruth.find_centres (groundtruth.py lines 104-135): convolve the
amplified data with the float kernel and report the constrained local
maxima. -/
def findCentres (g : GroundTruth) (data : Vol) : List (ℕ × ℕ × ℕ) :=
  peakLocalMax data.shape (findCentresConvolved g data) g.min_distance
    (measureLabel data.shape data.data)

/-! ### Synthesis (compute_gt) -/

/-- Elementwise numpy addition of two 3D arrays with numpy broadcasting:
each axis pair must be equal or contain a 1; on success an input is read
with index 0 along its broadcast axes; otherwise numpy raises, modelled as
none. Models the + at groundtruth.py line 205. -/
def npAdd (a b : Vol) : Option Vol :=
  let dim : ℕ → ℕ → Option ℕ := fun m n =>
    if m = n then some m else if m = 1 then some n else if n = 1 then some m else none
  match dim a.shape.1 b.shape.1, dim a.shape.2.1 b.shape.2.1, dim a.shape.2.2 b.shape.2.2 with
  | some z, some y, some x =>
    some ⟨(z, y, x), fun p =>
      a.data (if a.shape.1 = 1 then 0 else p.1,
              if a.shape.2.1 = 1 then 0 else p.2.1,
              if a.shape.2.2 = 1 then 0 else p.2.2) +
      b.data (if b.shape.1 = 1 then 0 else p.1,
              if b.shape.2.1 = 1 then 0 else p.2.1,
              if b.shape.2.2 = 1 then 0 else p.2.2)⟩
  | _, _, _ => none

/-- Cast of a detected centre to signed coordinates. -/
def natLoc (c : ℕ × ℕ × ℕ) : ℤ × ℤ × ℤ := ((c.1 : ℤ), (c.2.1 : ℤ), (c.2.2 : ℤ))

/-- The stamping loop of compute_gt (groundtruth.py lines 209-212): draw a
ball at every centre in detection order, labelling it with the combined
value at the centre; the first draw_ball error aborts the loop, keeping
the cache state reached so far. -/
def stampLoop (g : GroundTruth) (vol : Vol) (combined : Vol) :
    List (ℕ × ℕ × ℕ) → Except Unit Vol × GroundTruth
  | [] => (Except.ok vol, g)
  | c :: rest =>
    match drawBall g vol (natLoc c) (combined.data c) with
    | (Except.ok v2, g2) => stampLoop g2 v2 combined rest
    | (Except.error e, g2) => (Except.error e, g2)

/-- GroundTruth.compute_gt (groundtruth.py lines 194-214): combine the two
marking volumes, allocate the all-zero output, detect centres and stamp a
ball at each. The returned volume models the self.ground_truth attribute. -/
def computeGt (g : GroundTruth) : Except Unit Vol × GroundTruth :=
  match npAdd g.pos_data g.neg_data with
  | none => (Except.error (), g)
  | some combined =>
    let gt0 : Vol := ⟨combined.shape, fun _ => 0⟩
    stampLoop g gt0 combined (findCentres g combined)

/-- One public operation on a GroundTruth instance, for stating state
invariants over arbitrary call sequences. -/
inductive GTOp
  | draw (array : Vol) (location : ℤ × ℤ × ℤ) (label : ℤ)
  | compute

/-- State reached after one operation. -/
def applyOp (g : GroundTruth) : GTOp → GroundTruth
  | .draw a l lab => (drawBall g a l lab).2
  | .compute => (computeGt g).2

/-- State reached after a sequence of operations. -/
def runOps (g : GroundTruth) (ops : List GTOp) : GroundTruth :=
  ops.foldl applyOp g

/-! ### Concrete volumes used by evaluations and witnesses -/

/-- The last centre of a detection list whose stamped clipped ball covers
voxel p, the centre whose label the voxel ends up with. -/
def lastCover (ksh : ℤ × ℤ × ℤ) (ash : ℕ × ℕ × ℕ) (cs : List (ℕ × ℕ × ℕ))
    (p : ℕ × ℕ × ℕ) : Option (ℕ × ℕ × ℕ) :=
  cs.reverse.find? fun c => covers ksh ash (natLoc c) p

/-- The empty ball cache, the balls dictionary of a fresh instance. -/
def emptyBalls : List ((ℤ × ℤ × ℤ) × ((ℕ × ℕ × ℕ) → Bool)) := []

/-- All-zero volume of a given shape. -/
def zerosVol (sh : ℕ × ℕ × ℕ) : Vol := ⟨sh, fun _ => 0⟩

/-- All-ones volume of shape (1, 1, 1). -/
def onesVol111 : Vol := ⟨(1, 1, 1), fun _ => 1⟩

/-- The per-axis condition under which the masked assignment of draw_ball
is well formed: the sphere must not end strictly inside the negative index
range of the axis. -/
def axisOk (loc d : ℤ) (B : ℕ) : Prop :=
  0 ≤ loc - d / 2 + d ∨ loc - d / 2 + d ≤ -(B : ℤ)

/-- The instance used to compare the boundary modes: its resolution makes
the kernel shape exactly (201, 201, 201), where the float-kernel resize is
the identity. -/
def gtC5 : GroundTruth := mkGroundTruth onesVol111 onesVol111 300 (100/67, 100/67, 100/67) 1

/-- Cache shape reachable on one instance: the kernel shape is fixed and
the dictionary is empty or holds exactly the one entry for that key. -/
def singleInv (k : ℤ × ℤ × ℤ) (g : GroundTruth) : Prop :=
  g.kernel_shape = k ∧ (g.balls = [] ∨ g.balls = [(k, boolBall k)])

/-- Concrete target volume for stamping evaluations. -/
def arrW : Vol := zerosVol (1, 1, 10)

/-- A concrete instance with kernel shape (1, 1, 5) written out directly
(the state an __init__ call with diameter 300 and resolution (300, 300, 60)
produces), used to evaluate draw_ball on explicit inputs. -/
def gtW : GroundTruth :=
  { pos_data := arrW
    neg_data := arrW
    voxel_size := (300, 300, 60)
    offset := (0, 0, 0)
    background_label := 0
    num_classes := 3
    axes := ['z', 'y', 'x']
    balls := []
    min_distance := 1
    kernel_shape := (1, 1, 5) }

/-! ### Basic lemmas -/

lemma mem_indicesOf {sh p : ℕ × ℕ × ℕ} :
    p ∈ indicesOf sh ↔ p.1 < sh.1 ∧ p.2.1 < sh.2.1 ∧ p.2.2 < sh.2.2 := by
  obtain ⟨z, y, x⟩ := p
  simp only [indicesOf, List.mem_flatMap, List.mem_map, List.mem_range, Prod.mk.injEq]
  constructor
  · rintro ⟨a, ha, b, hb, c, hc, rfl, rfl, rfl⟩
    exact ⟨ha, hb, hc⟩
  · rintro ⟨hz, hy, hx⟩
    exact ⟨z, hz, y, hy, x, hx, rfl, rfl, rfl⟩

lemma clipAxis_len_eq {loc d : ℤ} {B : ℕ}
    (h : 0 ≤ loc - d / 2 + d ∨ loc - d / 2 + d ≤ -(B : ℤ)) :
    lenA (clipAxis loc d B) = lenB (clipAxis loc d B) := by
  simp only [clipAxis, lenA, lenB, resolveIdx]
  split_ifs <;> omega

lemma clipAxis_a1_le {loc d : ℤ} {B : ℕ} : (clipAxis loc d B).a1 ≤ B := by
  simp only [clipAxis, resolveIdx]
  split_ifs <;> omega

lemma clipAxis_empty {loc d : ℤ} {B : ℕ}
    (hok : 0 ≤ loc - d / 2 + d ∨ loc - d / 2 + d ≤ -(B : ℤ))
    (h : loc - d / 2 + d ≤ 0 ∨ (B : ℤ) ≤ loc - d / 2) :
    (clipAxis loc d B).a1 ≤ (clipAxis loc d B).a0 := by
  simp only [clipAxis, resolveIdx]
  split_ifs <;> omega

lemma lookupBall_mem {balls : List ((ℤ × ℤ × ℤ) × ((ℕ × ℕ × ℕ) → Bool))}
    {k : ℤ × ℤ × ℤ} {b : (ℕ × ℕ × ℕ) → Bool}
    (h : lookupBall balls k = some b) : (k, b) ∈ balls := by
  induction balls with
  | nil => simp [lookupBall] at h
  | cons e rest ih =>
    by_cases he : e.1 = k
    · simp only [lookupBall, he, if_pos rfl] at h
      cases h
      rw [← he, Prod.mk.eta]
      exact List.mem_cons_self e rest
    · simp only [lookupBall, if_neg he] at h
      exact List.mem_cons_of_mem _ (ih h)

lemma getBall_fst {balls : List ((ℤ × ℤ × ℤ) × ((ℕ × ℕ × ℕ) → Bool))}
    {k : ℤ × ℤ × ℤ} (h : cacheInv balls) : (getBall balls k).1 = boolBall k := by
  unfold getBall
  cases hl : lookupBall balls k with
  | none => rfl
  | some b =>
    have hm := lookupBall_mem hl
    have := h _ hm
    simpa using this

lemma cacheInv_getBall {balls : List ((ℤ × ℤ × ℤ) × ((ℕ × ℕ × ℕ) → Bool))}
    {k : ℤ × ℤ × ℤ} (h : cacheInv balls) : cacheInv (getBall balls k).2 := by
  unfold getBall
  cases hl : lookupBall balls k with
  | none =>
    intro e he
    rcases List.mem_cons.mp he with h1 | h1
    · rw [h1]
    · exact h _ h1
  | some b => exact h

lemma getBall_snd_cases (balls : List ((ℤ × ℤ × ℤ) × ((ℕ × ℕ × ℕ) → Bool)))
    (k : ℤ × ℤ × ℤ) :
    (getBall balls k).2 = balls ∨ (getBall balls k).2 = (k, boolBall k) :: balls := by
  unfold getBall
  cases hl : lookupBall balls k with
  | none => right; rfl
  | some b => left; rfl

lemma drawBall_snd_kernel (g : GroundTruth) (a : Vol) (loc : ℤ × ℤ × ℤ) (lab : ℤ) :
    ((drawBall g a loc lab).2).kernel_shape = g.kernel_shape := by
  unfold drawBall
  dsimp only
  split <;> rfl

lemma drawBall_snd_balls (g : GroundTruth) (a : Vol) (loc : ℤ × ℤ × ℤ) (lab : ℤ) :
    ((drawBall g a loc lab).2).balls = (getBall g.balls g.kernel_shape).2 := by
  unfold drawBall
  dsimp only
  split <;> rfl

lemma drawBall_ok_spec {g : GroundTruth} {a : Vol} {loc : ℤ × ℤ × ℤ} {lab : ℤ}
    (hc : cacheInv g.balls)
    (hz : axisOk loc.1 g.kernel_shape.1 a.shape.1)
    (hy : axisOk loc.2.1 g.kernel_shape.2.1 a.shape.2.1)
    (hx : axisOk loc.2.2 g.kernel_shape.2.2 a.shape.2.2) :
    drawBall g a loc lab =
      (Except.ok ⟨a.shape,
        fun p => if covers g.kernel_shape a.shape loc p then lab else a.data p⟩,
       { g with balls := (getBall g.balls g.kernel_shape).2 }) := by
  unfold drawBall
  dsimp only
  rw [getBall_fst hc]
  rw [if_pos ⟨clipAxis_len_eq hz, clipAxis_len_eq hy, clipAxis_len_eq hx⟩]
  rfl

lemma axisOk_of_nonneg {loc d : ℤ} {B : ℕ} (hl : 0 ≤ loc) (hd : 1 ≤ d) :
    axisOk loc d B := by
  unfold axisOk
  left
  omega

lemma lastCover_nil {ksh : ℤ × ℤ × ℤ} {ash : ℕ × ℕ × ℕ} {p : ℕ × ℕ × ℕ} :
    lastCover ksh ash [] p = none := rfl

lemma lastCover_cons {ksh : ℤ × ℤ × ℤ} {ash : ℕ × ℕ × ℕ} {c : ℕ × ℕ × ℕ}
    {cs : List (ℕ × ℕ × ℕ)} {p : ℕ × ℕ × ℕ} :
    lastCover ksh ash (c :: cs) p =
      (lastCover ksh ash cs p).or
        (if covers ksh ash (natLoc c) p then some c else none) := by
  by_cases hc : covers ksh ash (natLoc c) p = true <;>
    simp [lastCover, List.find?_append, List.find?, hc]

lemma stampLoop_spec (combined : Vol) (cs : List (ℕ × ℕ × ℕ)) :
    ∀ (g : GroundTruth) (vol : Vol),
      cacheInv g.balls →
      1 ≤ g.kernel_shape.1 → 1 ≤ g.kernel_shape.2.1 → 1 ≤ g.kernel_shape.2.2 →
      (∀ c ∈ cs, c.1 < vol.shape.1 ∧ c.2.1 < vol.shape.2.1 ∧ c.2.2 < vol.shape.2.2) →
      ∃ v2 g2, stampLoop g vol combined cs = (Except.ok v2, g2) ∧
        g2.kernel_shape = g.kernel_shape ∧
        cacheInv g2.balls ∧
        v2.shape = vol.shape ∧
        ∀ p, v2.data p =
          match lastCover g.kernel_shape vol.shape cs p with
          | some c => combined.data c
          | none => vol.data p := by
  induction cs with
  | nil =>
    intro g vol hc _ _ _ _
    exact ⟨vol, g, rfl, rfl, hc, rfl, fun p => rfl⟩
  | cons c rest ih =>
    intro g vol hc hk1 hk2 hk3 hcs
    obtain ⟨hcz, hcy, hcx⟩ := hcs c (List.mem_cons_self c rest)
    have hz : axisOk (natLoc c).1 g.kernel_shape.1 vol.shape.1 :=
      axisOk_of_nonneg (Int.natCast_nonneg _) hk1
    have hy : axisOk (natLoc c).2.1 g.kernel_shape.2.1 vol.shape.2.1 :=
      axisOk_of_nonneg (Int.natCast_nonneg _) hk2
    have hx : axisOk (natLoc c).2.2 g.kernel_shape.2.2 vol.shape.2.2 :=
      axisOk_of_nonneg (Int.natCast_nonneg _) hk3
    have hstep := @drawBall_ok_spec g vol (natLoc c) (combined.data c) hc hz hy hx
    have hrec : stampLoop g vol combined (c :: rest) =
        stampLoop { g with balls := (getBall g.balls g.kernel_shape).2 }
          ⟨vol.shape, fun p =>
            if covers g.kernel_shape vol.shape (natLoc c) p then combined.data c
            else vol.data p⟩
          combined rest := by
      rw [stampLoop, hstep]
    obtain ⟨v2, g2, heq, hker, hcinv, hsh, hdata⟩ :=
      ih { g with balls := (getBall g.balls g.kernel_shape).2 }
        ⟨vol.shape, fun p =>
          if covers g.kernel_shape vol.shape (natLoc c) p then combined.data c
          else vol.data p⟩
        (cacheInv_getBall hc) hk1 hk2 hk3
        (fun c2 hc2 => hcs c2 (List.mem_cons_of_mem _ hc2))
    refine ⟨v2, g2, ?_, hker, hcinv, hsh, ?_⟩
    · rw [hrec]
      exact heq
    · intro p
      rw [hdata p, lastCover_cons]
      cases hlast : lastCover g.kernel_shape vol.shape rest p with
      | some c2 => simp
      | none =>
        by_cases hcov : covers g.kernel_shape vol.shape (natLoc c) p = true <;>
          simp [hcov]

lemma mem_insertDesc {img : ℕ × ℕ × ℕ → ℚ} {c q : ℕ × ℕ × ℕ} :
    ∀ {l : List (ℕ × ℕ × ℕ)}, q ∈ insertDesc img c l ↔ q = c ∨ q ∈ l := by
  intro l
  induction l with
  | nil => simp [insertDesc]
  | cons x xs ih =>
    simp only [insertDesc]
    split_ifs with h
    · simp [List.mem_cons]
    · simp only [List.mem_cons, ih]
      tauto

lemma mem_sortDesc {img : ℕ × ℕ × ℕ → ℚ} {l : List (ℕ × ℕ × ℕ)} {q : ℕ × ℕ × ℕ} :
    q ∈ sortDesc img l ↔ q ∈ l := by
  induction l with
  | nil => simp [sortDesc]
  | cons x xs ih =>
    show q ∈ insertDesc img x (sortDesc img xs) ↔ _
    rw [mem_insertDesc, ih]
    simp [List.mem_cons]

lemma findCentres_bounds {g : GroundTruth} {data : Vol} {c : ℕ × ℕ × ℕ}
    (h : c ∈ findCentres g data) :
    c.1 < data.shape.1 ∧ c.2.1 < data.shape.2.1 ∧ c.2.2 < data.shape.2.2 := by
  unfold findCentres peakLocalMax at h
  rw [mem_sortDesc] at h
  exact mem_indicesOf.mp (List.mem_filter.mp h).1

lemma findCentres_data_ne_zero {g : GroundTruth} {data : Vol} {c : ℕ × ℕ × ℕ}
    (h : c ∈ findCentres g data) : data.data c ≠ 0 := by
  unfold findCentres peakLocalMax at h
  rw [mem_sortDesc] at h
  have hp := (List.mem_filter.mp h).2
  unfold isPeak at hp
  have h1 := (Bool.and_eq_true_iff.mp hp).1
  rw [decide_eq_true_iff] at h1
  intro hz
  apply h1
  unfold measureLabel
  rw [if_pos hz]

lemma findCentres_of_zero {g : GroundTruth} {data : Vol}
    (h : ∀ p, data.data p = 0) : findCentres g data = [] := by
  unfold findCentres peakLocalMax
  have hf : (indicesOf data.shape).filter
      (isPeak data.shape (findCentresConvolved g data) g.min_distance
        (measureLabel data.shape data.data)) = [] := by
    rw [List.filter_eq_nil_iff]
    intro q _
    unfold isPeak measureLabel
    rw [h q, if_pos rfl]
    simp
  rw [hf]
  rfl

lemma npAdd_of_shape_eq {a b : Vol} (h : b.shape = a.shape) :
    ∃ combined, npAdd a b = some combined ∧ combined.shape = a.shape ∧
      (∀ p : ℕ × ℕ × ℕ, p.1 < a.shape.1 → p.2.1 < a.shape.2.1 → p.2.2 < a.shape.2.2 →
        combined.data p = a.data p + b.data p) ∧
      (∀ p : ℕ × ℕ × ℕ, ∃ qa qb, combined.data p = a.data qa + b.data qb) := by
  unfold npAdd
  rw [h]
  simp only [if_pos rfl, eq_self_iff_true, if_true]
  refine ⟨_, rfl, rfl, ?_, fun p => ⟨_, _, rfl⟩⟩
  intro p h1 h2 h3
  obtain ⟨p1, p2, p3⟩ := p
  dsimp only at h1 h2 h3 ⊢
  have e1 : (if a.shape.1 = 1 then 0 else p1) = p1 := by split_ifs with hh <;> omega
  have e2 : (if a.shape.2.1 = 1 then 0 else p2) = p2 := by split_ifs with hh <;> omega
  have e3 : (if a.shape.2.2 = 1 then 0 else p3) = p3 := by split_ifs with hh <;> omega
  rw [e1, e2, e3]

/-! ### Convolution lemmas for the boundary-mode comparison -/

lemma srcCoord_self (i : ℕ) : srcCoord 201 201 i = ((i : ℤ) : ℚ) := by
  unfold srcCoord
  rw [mul_div_assoc]
  push_cast
  norm_num

lemma interp1_intCast (f : ℤ → ℚ) (n : ℤ) : interp1 f ((n : ℤ) : ℚ) = f n := by
  unfold interp1
  rw [Int.floor_intCast]
  simp

lemma floatKernel_201 (j : ℕ × ℕ × ℕ) :
    floatKernel (201, 201, 201) j = ball100Q ((j.1 : ℤ), (j.2.1 : ℤ), (j.2.2 : ℤ)) := by
  obtain ⟨a, b, c⟩ := j
  unfold floatKernel
  simp only [srcCoord_self, interp1_intCast]

lemma ball100Q_nonneg (p : ℤ × ℤ × ℤ) : 0 ≤ ball100Q p := by
  unfold ball100Q
  split_ifs <;> norm_num

lemma interp1_nonneg (f : ℤ → ℚ) (hf : ∀ z, 0 ≤ f z) (x : ℚ) : 0 ≤ interp1 f x := by
  unfold interp1
  have h0 : (0 : ℚ) ≤ x - ⌊x⌋ := by
    have := Int.floor_le x
    linarith
  have h1 : x - ⌊x⌋ ≤ 1 := by
    have := Int.lt_floor_add_one x
    linarith
  exact add_nonneg (mul_nonneg (by linarith) (hf _)) (mul_nonneg h0 (hf _))

lemma floatKernel_nonneg (sh j : ℕ × ℕ × ℕ) : 0 ≤ floatKernel sh j := by
  unfold floatKernel
  apply interp1_nonneg
  intro z
  apply interp1_nonneg
  intro y
  apply interp1_nonneg
  intro x
  exact ball100Q_nonneg _

lemma gtC5_kshNat : kshNat gtC5 = (201, 201, 201) := by
  have h : (⌈(300 : ℚ) / (100/67)⌉ : ℤ) = 201 := by norm_num
  simp [kshNat, gtC5, mkGroundTruth, kernelShape, h]

lemma convC5_reflect :
    findCentresConvolved gtC5 onesVol111 (0, 0, 0) =
      5 * ∑ j ∈ kernelIdx (201, 201, 201), floatKernel (201, 201, 201) j := by
  unfold findCentresConvolved convolveReflect
  rw [gtC5_kshNat, Finset.mul_sum]
  apply Finset.sum_congr rfl
  intro j _
  show floatKernel (201, 201, 201) j * (5 * ((1 : ℤ) : ℚ)) = 5 * floatKernel (201, 201, 201) j
  push_cast
  ring

lemma sumC5_ge_two :
    (2 : ℚ) ≤ ∑ j ∈ kernelIdx (201, 201, 201), floatKernel (201, 201, 201) j := by
  have ha : ((100, 100, 100) : ℕ × ℕ × ℕ) ∈ kernelIdx (201, 201, 201) := by
    simp [kernelIdx, Finset.mem_product]
  have hb : ((100, 100, 101) : ℕ × ℕ × ℕ) ∈ kernelIdx (201, 201, 201) := by
    simp [kernelIdx, Finset.mem_product]
  have hne : ((100, 100, 100) : ℕ × ℕ × ℕ) ≠ (100, 100, 101) := by decide
  have hsub : ({(100, 100, 100), (100, 100, 101)} : Finset (ℕ × ℕ × ℕ)) ⊆
      kernelIdx (201, 201, 201) := by
    intro x hx
    rcases Finset.mem_insert.mp hx with rfl | hx
    · exact ha
    · rw [Finset.mem_singleton.mp hx]
      exact hb
  have hpair : ∑ j ∈ ({(100, 100, 100), (100, 100, 101)} : Finset (ℕ × ℕ × ℕ)),
      floatKernel (201, 201, 201) j = 2 := by
    rw [Finset.sum_pair hne, floatKernel_201, floatKernel_201]
    unfold ball100Q
    rw [if_pos (by norm_num [ball100]), if_pos (by norm_num [ball100])]
    norm_num
  calc (2 : ℚ) = ∑ j ∈ ({(100, 100, 100), (100, 100, 101)} : Finset (ℕ × ℕ × ℕ)),
      floatKernel (201, 201, 201) j := hpair.symm
    _ ≤ _ := Finset.sum_le_sum_of_subset_of_nonneg hsub
        (fun i _ _ => floatKernel_nonneg _ i)

lemma convC5_zeropad :
    convolveZeroPad (1, 1, 1) (fun p => 5 * (onesVol111.data p : ℚ))
      (201, 201, 201) (floatKernel (201, 201, 201)) (0, 0, 0) = 5 := by
  unfold convolveZeroPad
  rw [Finset.sum_eq_single_of_mem ((100, 100, 100) : ℕ × ℕ × ℕ)
    (by simp [kernelIdx, Finset.mem_product]) ?hz]
  case hz =>
    intro b _ hne
    obtain ⟨b1, b2, b3⟩ := b
    rw [if_neg]
    · exact mul_zero _
    · intro hcond
      apply hne
      unfold readPos at hcond
      obtain ⟨c1, c2, c3, c4, c5, c6⟩ := hcond
      dsimp only at c1 c2 c3 c4 c5 c6
      simp only [Prod.mk.injEq]
      omega
  rw [if_pos (by unfold readPos; norm_num)]
  rw [floatKernel_201]
  unfold ball100Q
  rw [if_pos (by norm_num [ball100])]
  norm_num [onesVol111]


/-! ### Bounds and no-op lemmas for stamping -/

lemma inClip_false_of_empty (c : AxisClip) (h : c.a1 ≤ c.a0) (i : ℕ) :
    inClip c i = false := by
  unfold inClip
  by_cases h1 : c.a0 ≤ i
  · have h2 : ¬ i < c.a1 := by omega
    simp [h1, h2]
  · simp [h1]

lemma covers_bounds {ksh : ℤ × ℤ × ℤ} {ash : ℕ × ℕ × ℕ} {loc : ℤ × ℤ × ℤ}
    {p : ℕ × ℕ × ℕ} (h : covers ksh ash loc p = true) :
    p.1 < ash.1 ∧ p.2.1 < ash.2.1 ∧ p.2.2 < ash.2.2 := by
  unfold covers coversWith inClip at h
  simp only [Bool.and_eq_true, decide_eq_true_eq] at h
  obtain ⟨⟨⟨⟨_, hz⟩, _, hy⟩, _, hx⟩, _⟩ := h
  exact ⟨lt_of_lt_of_le hz clipAxis_a1_le,
         lt_of_lt_of_le hy clipAxis_a1_le,
         lt_of_lt_of_le hx clipAxis_a1_le⟩

lemma covers_false_z {ksh : ℤ × ℤ × ℤ} {ash : ℕ × ℕ × ℕ} {loc : ℤ × ℤ × ℤ}
    (h : (clipAxis loc.1 ksh.1 ash.1).a1 ≤ (clipAxis loc.1 ksh.1 ash.1).a0)
    (p : ℕ × ℕ × ℕ) : covers ksh ash loc p = false := by
  unfold covers coversWith
  rw [inClip_false_of_empty _ h]
  simp

lemma covers_false_y {ksh : ℤ × ℤ × ℤ} {ash : ℕ × ℕ × ℕ} {loc : ℤ × ℤ × ℤ}
    (h : (clipAxis loc.2.1 ksh.2.1 ash.2.1).a1 ≤ (clipAxis loc.2.1 ksh.2.1 ash.2.1).a0)
    (p : ℕ × ℕ × ℕ) : covers ksh ash loc p = false := by
  unfold covers coversWith
  rw [inClip_false_of_empty _ h]
  simp

lemma covers_false_x {ksh : ℤ × ℤ × ℤ} {ash : ℕ × ℕ × ℕ} {loc : ℤ × ℤ × ℤ}
    (h : (clipAxis loc.2.2 ksh.2.2 ash.2.2).a1 ≤ (clipAxis loc.2.2 ksh.2.2 ash.2.2).a0)
    (p : ℕ × ℕ × ℕ) : covers ksh ash loc p = false := by
  unfold covers coversWith
  rw [inClip_false_of_empty _ h]
  simp

/-! ### Cache evolution lemmas -/

lemma lookupBall_ne_none_of_mem {balls : List ((ℤ × ℤ × ℤ) × ((ℕ × ℕ × ℕ) → Bool))}
    {k : ℤ × ℤ × ℤ} {b : (ℕ × ℕ × ℕ) → Bool}
    (h : (k, b) ∈ balls) : lookupBall balls k ≠ none := by
  induction balls with
  | nil => cases h
  | cons e rest ih =>
    unfold lookupBall
    split_ifs with he
    · simp
    · rcases List.mem_cons.mp h with h1 | h1
      · exact absurd (by rw [← h1]) he
      · exact ih h1

lemma getBall_snd_evol (balls : List ((ℤ × ℤ × ℤ) × ((ℕ × ℕ × ℕ) → Bool)))
    (k : ℤ × ℤ × ℤ) :
    (getBall balls k).2 = balls ∨
    (lookupBall balls k = none ∧ (getBall balls k).2 = (k, boolBall k) :: balls) := by
  cases hl : lookupBall balls k with
  | none =>
    right
    refine ⟨rfl, ?_⟩
    unfold getBall
    rw [hl]
  | some b =>
    left
    unfold getBall
    rw [hl]

lemma stampLoop_snd_kernel (combined : Vol) (cs : List (ℕ × ℕ × ℕ)) :
    ∀ (g : GroundTruth) (vol : Vol),
      ((stampLoop g vol combined cs).2).kernel_shape = g.kernel_shape := by
  induction cs with
  | nil => intro g vol; rfl
  | cons c rest ih =>
    intro g vol
    rw [stampLoop]
    cases hdb : drawBall g vol (natLoc c) (combined.data c) with
    | mk res g2 =>
      have hker : g2.kernel_shape = g.kernel_shape := by
        have h2 := drawBall_snd_kernel g vol (natLoc c) (combined.data c)
        rw [hdb] at h2
        exact h2
      cases res with
      | ok v2 =>
        dsimp only
        rw [ih g2 v2, hker]
      | error e =>
        dsimp only
        exact hker

lemma stampLoop_balls_evol (combined : Vol) (cs : List (ℕ × ℕ × ℕ)) :
    ∀ (g : GroundTruth) (vol : Vol),
      ((stampLoop g vol combined cs).2).balls = g.balls ∨
      (lookupBall g.balls g.kernel_shape = none ∧
       ((stampLoop g vol combined cs).2).balls =
         (g.kernel_shape, boolBall g.kernel_shape) :: g.balls) := by
  induction cs with
  | nil => intro g vol; left; rfl
  | cons c rest ih =>
    intro g vol
    rw [stampLoop]
    cases hdb : drawBall g vol (natLoc c) (combined.data c) with
    | mk res g2 =>
      have hker : g2.kernel_shape = g.kernel_shape := by
        have h2 := drawBall_snd_kernel g vol (natLoc c) (combined.data c)
        rw [hdb] at h2
        exact h2
      have hballs : g2.balls = (getBall g.balls g.kernel_shape).2 := by
        have h2 := drawBall_snd_balls g vol (natLoc c) (combined.data c)
        rw [hdb] at h2
        exact h2
      cases res with
      | error e =>
        dsimp only
        rcases getBall_snd_evol g.balls g.kernel_shape with h | ⟨hn, h⟩
        · left
          rw [hballs, h]
        · right
          exact ⟨hn, by rw [hballs, h]⟩
      | ok v2 =>
        dsimp only
        rcases ih g2 v2 with h | ⟨hn, h⟩
        · rcases getBall_snd_evol g.balls g.kernel_shape with h1 | ⟨hn1, h1⟩
          · left
            rw [h, hballs, h1]
          · right
            exact ⟨hn1, by rw [h, hballs, h1]⟩
        · rcases getBall_snd_evol g.balls g.kernel_shape with h1 | ⟨hn1, h1⟩
          · right
            rw [hballs, h1, hker] at hn
            refine ⟨hn, ?_⟩
            rw [h, hker, hballs, h1]
          · exfalso
            rw [hballs, h1, hker] at hn
            unfold lookupBall at hn
            rw [if_pos rfl] at hn
            cases hn

lemma applyOp_kernel (g : GroundTruth) (op : GTOp) :
    (applyOp g op).kernel_shape = g.kernel_shape := by
  cases op with
  | draw a l lab => exact drawBall_snd_kernel g a l lab
  | compute =>
    show ((computeGt g).2).kernel_shape = g.kernel_shape
    unfold computeGt
    cases h : npAdd g.pos_data g.neg_data with
    | none => rfl
    | some combined =>
      dsimp only
      exact stampLoop_snd_kernel combined _ g _

lemma applyOp_balls_evol (g : GroundTruth) (op : GTOp) :
    (applyOp g op).balls = g.balls ∨
    (lookupBall g.balls g.kernel_shape = none ∧
     (applyOp g op).balls = (g.kernel_shape, boolBall g.kernel_shape) :: g.balls) := by
  cases op with
  | draw a l lab =>
    have hballs : (applyOp g (GTOp.draw a l lab)).balls =
        (getBall g.balls g.kernel_shape).2 := drawBall_snd_balls g a l lab
    rw [hballs]
    exact getBall_snd_evol g.balls g.kernel_shape
  | compute =>
    cases h : npAdd g.pos_data g.neg_data with
    | none =>
      have heq : applyOp g GTOp.compute = g := by
        show (computeGt g).2 = g
        unfold computeGt
        rw [h]
      rw [heq]
      left
      rfl
    | some combined =>
      have heq : applyOp g GTOp.compute =
          (stampLoop g ⟨combined.shape, fun _ => 0⟩ combined (findCentres g combined)).2 := by
        show (computeGt g).2 = _
        unfold computeGt
        rw [h]
      rw [heq]
      exact stampLoop_balls_evol combined _ g _

lemma runOps_kernel (ops : List GTOp) :
    ∀ g : GroundTruth, (runOps g ops).kernel_shape = g.kernel_shape := by
  induction ops with
  | nil => intro g; rfl
  | cons op rest ih =>
    intro g
    show (runOps (applyOp g op) rest).kernel_shape = _
    rw [ih, applyOp_kernel]

lemma applyOp_singleInv {k : ℤ × ℤ × ℤ} {g : GroundTruth}
    (h : singleInv k g) (op : GTOp) : singleInv k (applyOp g op) := by
  obtain ⟨hk, hb⟩ := h
  constructor
  · rw [applyOp_kernel, hk]
  · rcases applyOp_balls_evol g op with he | ⟨hn, he⟩
    · rw [he]
      exact hb
    · rcases hb with hb | hb
      · right
        rw [he, hb, hk]
      · exfalso
        rw [hb, hk] at hn
        unfold lookupBall at hn
        rw [if_pos rfl] at hn
        cases hn

lemma runOps_singleInv {k : ℤ × ℤ × ℤ} (ops : List GTOp) :
    ∀ {g : GroundTruth}, singleInv k g → singleInv k (runOps g ops) := by
  induction ops with
  | nil => intro g h; exact h
  | cons op rest ih =>
    intro g h
    exact ih (applyOp_singleInv h op)

lemma applyOp_mem {g : GroundTruth} {e : (ℤ × ℤ × ℤ) × ((ℕ × ℕ × ℕ) → Bool)}
    (h : e ∈ g.balls) (op : GTOp) : e ∈ (applyOp g op).balls := by
  rcases applyOp_balls_evol g op with he | ⟨_, he⟩
  · rw [he]
    exact h
  · rw [he]
    exact List.mem_cons_of_mem _ h

lemma runOps_mem {e : (ℤ × ℤ × ℤ) × ((ℕ × ℕ × ℕ) → Bool)} (ops : List GTOp) :
    ∀ {g : GroundTruth}, e ∈ g.balls → e ∈ (runOps g ops).balls := by
  induction ops with
  | nil => intro g h; exact h
  | cons op rest ih =>
    intro g h
    exact ih (applyOp_mem h op)

/-! ### Claim theorems -/

/-- Claim C1: for every positive diameter and positive per-axis resolution
the kernel shape stored at construction equals the per-axis ceiling of
diameter over resolution; in particular diameter 300 with resolution
(60, 60, 60) gives (5, 5, 5) and with (30, 60, 60) gives (10, 5, 5). -/
theorem claimC1_kernel_shape (pos neg : Vol) (d : ℚ) (r : ℚ × ℚ × ℚ) (md : ℕ)
    (_hd : 0 < d) (_h1 : 0 < r.1) (_h2 : 0 < r.2.1) (_h3 : 0 < r.2.2) :
    (mkGroundTruth pos neg d r md).kernel_shape = (⌈d / r.1⌉, ⌈d / r.2.1⌉, ⌈d / r.2.2⌉) ∧
    kernelShape 300 (60, 60, 60) = (5, 5, 5) ∧
    kernelShape 300 (30, 60, 60) = (10, 5, 5) := by
  refine ⟨rfl, ?_, ?_⟩ <;>
    · unfold kernelShape
      simp only [Prod.mk.injEq]
      norm_num

/-- Witness for claim C1 at diameter 300, resolution (60, 60, 60). -/
theorem claimC1_witness :
    (0 : ℚ) < 300 ∧ (0 : ℚ) < 60 ∧
    ((mkGroundTruth (zerosVol (1, 1, 1)) (zerosVol (1, 1, 1)) 300 (60, 60, 60) 1).kernel_shape
        = (⌈(300 : ℚ) / 60⌉, ⌈(300 : ℚ) / 60⌉, ⌈(300 : ℚ) / 60⌉) ∧
      kernelShape 300 (60, 60, 60) = (5, 5, 5) ∧
      kernelShape 300 (30, 60, 60) = (10, 5, 5)) :=
  ⟨by norm_num, by norm_num,
    claimC1_kernel_shape (zerosVol (1, 1, 1)) (zerosVol (1, 1, 1)) 300 (60, 60, 60) 1
      (by norm_num) (by norm_num) (by norm_num) (by norm_num)⟩

/-- Claim C6 evaluation: constructing with diameter 0 and resolution
(60, 60, 60) stores the degenerate kernel shape (0, 0, 0), whose every
axis is below one voxel, and the constructor completes normally; the
source has no InvalidKernelShape error path at all, so no abort happens
and synthesis would proceed from this degenerate state. -/
theorem claimC6_no_kernel_guard :
    (mkGroundTruth (zerosVol (1, 1, 1)) (zerosVol (1, 1, 1)) 0 (60, 60, 60) 1).kernel_shape
      = (0, 0, 0) ∧
    (mkGroundTruth (zerosVol (1, 1, 1)) (zerosVol (1, 1, 1)) 0 (60, 60, 60) 1).kernel_shape.1
      < 1 := by
  constructor
  · show kernelShape 0 (60, 60, 60) = (0, 0, 0)
    unfold kernelShape
    simp only [Prod.mk.injEq]
    norm_num
  · show (⌈(0 : ℚ) / 60⌉ : ℤ) < 1
    norm_num

/-- Claim C7 evaluation: marking volumes of shapes (1, 1, 1) and (1, 1, 2)
differ in shape, yet the numpy addition broadcasts them silently into
shape (1, 1, 2) and the whole synthesis completes with that output shape;
shapes (1, 1, 2) and (1, 1, 3) fail only inside the addition itself with
the generic numpy error. No ShapeMismatch check exists before the
combination. -/
theorem claimC7_no_shape_check :
    ((npAdd (zerosVol (1, 1, 1)) (zerosVol (1, 1, 2))).map Vol.shape = some (1, 1, 2)) ∧
    npAdd (zerosVol (1, 1, 2)) (zerosVol (1, 1, 3)) = none ∧
    ((computeGt (mkGroundTruth (zerosVol (1, 1, 1)) (zerosVol (1, 1, 2)) 300 (60, 60, 60) 1)).1.toOption.map
        Vol.shape = some (1, 1, 2)) :=
  ⟨rfl, rfl, rfl⟩

/-- Claim C9: the cache step of draw_ball is idempotent: a second request
with the same shape returns the identical mask and the unchanged
dictionary; a first request on a miss inserts exactly the one entry for
that key, growing the dictionary by one. -/
theorem claimC9_cache_idempotent (balls : List ((ℤ × ℤ × ℤ) × ((ℕ × ℕ × ℕ) → Bool)))
    (k : ℤ × ℤ × ℤ) :
    (getBall (getBall balls k).2 k).1 = (getBall balls k).1 ∧
    (getBall (getBall balls k).2 k).2 = (getBall balls k).2 ∧
    (getBall (getBall balls k).2 k).2.length = (getBall balls k).2.length ∧
    (lookupBall balls k = none →
      (getBall balls k).2 = (k, (getBall balls k).1) :: balls ∧
      (getBall balls k).2.length = balls.length + 1) := by
  cases hl : lookupBall balls k with
  | some b =>
    have h1 : getBall balls k = (b, balls) := by
      unfold getBall
      rw [hl]
    rw [h1]
    exact ⟨by rw [h1], by rw [h1], by rw [h1], fun h => absurd h (by simp)⟩
  | none =>
    have h1 : getBall balls k = (boolBall k, (k, boolBall k) :: balls) := by
      unfold getBall
      rw [hl]
    have h2 : lookupBall ((k, boolBall k) :: balls) k = some (boolBall k) := by
      unfold lookupBall
      rw [if_pos rfl]
    have h3 : getBall ((k, boolBall k) :: balls) k = (boolBall k, (k, boolBall k) :: balls) := by
      unfold getBall
      rw [h2]
    rw [h1]
    dsimp only
    rw [h3]
    exact ⟨rfl, rfl, rfl, fun _ => ⟨rfl, rfl⟩⟩

/-- Witness for claim C9 on the empty cache at key (1, 1, 5). -/
theorem claimC9_witness :
    (getBall (getBall emptyBalls ((1 : ℤ), (1 : ℤ), (5 : ℤ))).2 ((1 : ℤ), (1 : ℤ), (5 : ℤ))).1
        = (getBall emptyBalls ((1 : ℤ), (1 : ℤ), (5 : ℤ))).1 ∧
    (getBall emptyBalls ((1 : ℤ), (1 : ℤ), (5 : ℤ))).2
        = (((1 : ℤ), (1 : ℤ), (5 : ℤ)), (getBall emptyBalls ((1 : ℤ), (1 : ℤ), (5 : ℤ))).1)
            :: emptyBalls ∧
    (getBall emptyBalls ((1 : ℤ), (1 : ℤ), (5 : ℤ))).2.length = emptyBalls.length + 1 := by
  obtain ⟨h1, _, _, h4⟩ := claimC9_cache_idempotent emptyBalls ((1 : ℤ), (1 : ℤ), (5 : ℤ))
  exact ⟨h1, (h4 rfl).1, (h4 rfl).2⟩

/-- Claim C10: on any instance the cache key of every draw_ball call is
the integer kernel-shape tuple fixed at construction; after any sequence
of draw_ball and compute_gt calls the cache holds at most one entry, that
entry is the boolean ball keyed by the kernel shape, and an entry once
present survives every further sequence of calls. -/
theorem claimC10_cache_single_key (pos neg : Vol) (diam : ℚ) (res : ℚ × ℚ × ℚ) (md : ℕ)
    (ops ops2 : List GTOp) :
    (runOps (mkGroundTruth pos neg diam res md) ops).kernel_shape
        = (mkGroundTruth pos neg diam res md).kernel_shape ∧
    (runOps (mkGroundTruth pos neg diam res md) ops).balls.length ≤ 1 ∧
    (∀ e ∈ (runOps (mkGroundTruth pos neg diam res md) ops).balls,
      e = ((mkGroundTruth pos neg diam res md).kernel_shape,
           boolBall (mkGroundTruth pos neg diam res md).kernel_shape)) ∧
    (∀ e ∈ (runOps (mkGroundTruth pos neg diam res md) ops).balls,
      e ∈ (runOps (runOps (mkGroundTruth pos neg diam res md) ops) ops2).balls) := by
  have h0 : singleInv (mkGroundTruth pos neg diam res md).kernel_shape
      (mkGroundTruth pos neg diam res md) := ⟨rfl, Or.inl rfl⟩
  have h1 := runOps_singleInv ops h0
  refine ⟨h1.1, ?_, ?_, ?_⟩
  · rcases h1.2 with h | h <;> rw [h] <;> simp
  · intro e he
    rcases h1.2 with h | h
    · rw [h] at he
      cases he
    · rw [h] at he
      rcases List.mem_cons.mp he with h2 | h2
      · exact h2
      · cases h2
  · intro e he
    exact runOps_mem ops2 he

/-- Witness for claim C10 after one draw_ball call on a fresh instance. -/
theorem claimC10_witness :
    (runOps (mkGroundTruth (zerosVol (1, 1, 1)) (zerosVol (1, 1, 1)) 300 (60, 60, 60) 1)
        [GTOp.draw (zerosVol (1, 1, 1)) (0, 0, 0) 1]).balls.length ≤ 1 ∧
    (runOps (mkGroundTruth (zerosVol (1, 1, 1)) (zerosVol (1, 1, 1)) 300 (60, 60, 60) 1)
        [GTOp.draw (zerosVol (1, 1, 1)) (0, 0, 0) 1]).kernel_shape
      = (mkGroundTruth (zerosVol (1, 1, 1)) (zerosVol (1, 1, 1)) 300 (60, 60, 60) 1).kernel_shape :=
  ⟨(claimC10_cache_single_key (zerosVol (1, 1, 1)) (zerosVol (1, 1, 1)) 300 (60, 60, 60) 1
      [GTOp.draw (zerosVol (1, 1, 1)) (0, 0, 0) 1] []).2.1,
   (claimC10_cache_single_key (zerosVol (1, 1, 1)) (zerosVol (1, 1, 1)) 300 (60, 60, 60) 1
      [GTOp.draw (zerosVol (1, 1, 1)) (0, 0, 0) 1] []).1⟩

/-- Claim C3 counterexample: draw_ball is not total. With kernel shape
(1, 1, 5) on a (1, 1, 10) target, the centre (0, 0, -10) lies entirely
outside the array on the x axis, yet instead of a no-op the call fails:
the negative slice stop wraps to index 3 on the array side while the ball
side is empty, and the mismatched boolean-mask assignment raises. -/
theorem claimC3_counterexample :
    (drawBall (mkGroundTruth (zerosVol (1, 1, 10)) (zerosVol (1, 1, 10)) 300 (300, 300, 60) 1)
        (zerosVol (1, 1, 10)) (0, 0, -10) 1).1 = Except.error () := by
  have hk : (mkGroundTruth (zerosVol (1, 1, 10)) (zerosVol (1, 1, 10)) 300
      (300, 300, 60) 1).kernel_shape = (1, 1, 5) := by
    show kernelShape 300 (300, 300, 60) = (1, 1, 5)
    unfold kernelShape
    simp only [Prod.mk.injEq]
    norm_num
  unfold drawBall
  dsimp only
  rw [hk]
  rw [if_neg (by decide)]

/-- Claim C3 amended: under the per-axis side condition that the sphere
does not end strictly inside the negative index range (which holds for
every in-bounds centre, every sphere merely extending past a boundary, and
every sphere entirely outside past the far end), draw_ball succeeds,
writes only to in-bounds voxels with the given label, never wraps, and a
sphere entirely outside the target on some axis leaves every voxel
unchanged. Centres violating the side condition raise instead, as the
counterexample shows. -/
theorem claimC3_amended_clipping (g : GroundTruth) (arr : Vol) (loc : ℤ × ℤ × ℤ) (lab : ℤ)
    (hz : axisOk loc.1 g.kernel_shape.1 arr.shape.1)
    (hy : axisOk loc.2.1 g.kernel_shape.2.1 arr.shape.2.1)
    (hx : axisOk loc.2.2 g.kernel_shape.2.2 arr.shape.2.2)
    (hc : cacheInv g.balls) :
    ∃ v2 g2, drawBall g arr loc lab = (Except.ok v2, g2) ∧
      v2.shape = arr.shape ∧
      (∀ p, v2.data p ≠ arr.data p →
        (p.1 < arr.shape.1 ∧ p.2.1 < arr.shape.2.1 ∧ p.2.2 < arr.shape.2.2) ∧
        v2.data p = lab) ∧
      ((loc.1 - g.kernel_shape.1 / 2 + g.kernel_shape.1 ≤ 0 ∨
        (arr.shape.1 : ℤ) ≤ loc.1 - g.kernel_shape.1 / 2 ∨
        loc.2.1 - g.kernel_shape.2.1 / 2 + g.kernel_shape.2.1 ≤ 0 ∨
        (arr.shape.2.1 : ℤ) ≤ loc.2.1 - g.kernel_shape.2.1 / 2 ∨
        loc.2.2 - g.kernel_shape.2.2 / 2 + g.kernel_shape.2.2 ≤ 0 ∨
        (arr.shape.2.2 : ℤ) ≤ loc.2.2 - g.kernel_shape.2.2 / 2) →
        ∀ p, v2.data p = arr.data p) := by
  rw [drawBall_ok_spec hc hz hy hx]
  refine ⟨_, _, rfl, rfl, ?_, ?_⟩
  · intro p hne
    dsimp only at hne ⊢
    by_cases hcov : covers g.kernel_shape arr.shape loc p = true
    · exact ⟨covers_bounds hcov, by rw [if_pos hcov]⟩
    · exfalso
      apply hne
      rw [if_neg hcov]
  · intro hout p
    dsimp only
    have hfalse : covers g.kernel_shape arr.shape loc p = false := by
      rcases hout with h | h | h | h | h | h
      · exact covers_false_z (clipAxis_empty hz (Or.inl h)) p
      · exact covers_false_z (clipAxis_empty hz (Or.inr h)) p
      · exact covers_false_y (clipAxis_empty hy (Or.inl h)) p
      · exact covers_false_y (clipAxis_empty hy (Or.inr h)) p
      · exact covers_false_x (clipAxis_empty hx (Or.inl h)) p
      · exact covers_false_x (clipAxis_empty hx (Or.inr h)) p
    rw [if_neg (by rw [hfalse]; exact Bool.false_ne_true)]

/-- Witness for claim C3 at the corner centre (0, 0, 0) of a (1, 1, 10)
target with kernel shape (1, 1, 5). -/
theorem claimC3_witness :
    ∃ v2 g2, drawBall gtW arrW (0, 0, 0) 1 = (Except.ok v2, g2) ∧
      v2.shape = arrW.shape ∧
      (∀ p, v2.data p ≠ arrW.data p →
        (p.1 < arrW.shape.1 ∧ p.2.1 < arrW.shape.2.1 ∧ p.2.2 < arrW.shape.2.2) ∧
        v2.data p = 1) ∧
      (((0 : ℤ) - gtW.kernel_shape.1 / 2 + gtW.kernel_shape.1 ≤ 0 ∨
        (arrW.shape.1 : ℤ) ≤ (0 : ℤ) - gtW.kernel_shape.1 / 2 ∨
        (0 : ℤ) - gtW.kernel_shape.2.1 / 2 + gtW.kernel_shape.2.1 ≤ 0 ∨
        (arrW.shape.2.1 : ℤ) ≤ (0 : ℤ) - gtW.kernel_shape.2.1 / 2 ∨
        (0 : ℤ) - gtW.kernel_shape.2.2 / 2 + gtW.kernel_shape.2.2 ≤ 0 ∨
        (arrW.shape.2.2 : ℤ) ≤ (0 : ℤ) - gtW.kernel_shape.2.2 / 2) →
        ∀ p, v2.data p = arrW.data p) :=
  claimC3_amended_clipping gtW arrW (0, 0, 0) 1 (Or.inl (by decide)) (Or.inl (by decide))
    (Or.inl (by decide)) (fun e he => absurd he (List.not_mem_nil e))

/-- Claim C8: whenever draw_ball succeeds, exactly the voxels covered by
the clipped boolean ball receive the label and every other voxel keeps its
previous value, so pre-existing labels outside the sphere are never
erased. -/
theorem claimC8_stamp_frame (g : GroundTruth) (arr : Vol) (loc : ℤ × ℤ × ℤ) (lab : ℤ)
    (hc : cacheInv g.balls) :
    ∀ v2 g2, drawBall g arr loc lab = (Except.ok v2, g2) →
      ∀ p, (covers g.kernel_shape arr.shape loc p = true → v2.data p = lab) ∧
           (covers g.kernel_shape arr.shape loc p = false → v2.data p = arr.data p) := by
  intro v2 g2 hdb
  unfold drawBall at hdb
  dsimp only at hdb
  rw [getBall_fst hc] at hdb
  by_cases hcond : lenA (clipAxis loc.1 g.kernel_shape.1 arr.shape.1)
        = lenB (clipAxis loc.1 g.kernel_shape.1 arr.shape.1) ∧
      lenA (clipAxis loc.2.1 g.kernel_shape.2.1 arr.shape.2.1)
        = lenB (clipAxis loc.2.1 g.kernel_shape.2.1 arr.shape.2.1) ∧
      lenA (clipAxis loc.2.2 g.kernel_shape.2.2 arr.shape.2.2)
        = lenB (clipAxis loc.2.2 g.kernel_shape.2.2 arr.shape.2.2)
  · rw [if_pos hcond] at hdb
    have hv : v2 = ⟨arr.shape,
        fun q => if coversWith (boolBall g.kernel_shape)
            (clipAxis loc.1 g.kernel_shape.1 arr.shape.1)
            (clipAxis loc.2.1 g.kernel_shape.2.1 arr.shape.2.1)
            (clipAxis loc.2.2 g.kernel_shape.2.2 arr.shape.2.2) q then lab
          else arr.data q⟩ := by
      have h1 := congrArg Prod.fst hdb
      dsimp only at h1
      exact (Except.ok.inj h1).symm
    subst hv
    intro p
    constructor
    · intro hcov
      unfold covers at hcov
      dsimp only
      rw [if_pos hcov]
    · intro hcov
      unfold covers at hcov
      dsimp only
      rw [if_neg (by rw [hcov]; exact Bool.false_ne_true)]
  · rw [if_neg hcond] at hdb
    have h1 := congrArg Prod.fst hdb
    dsimp only at h1
    exact Except.noConfusion h1

/-- Witness for claim C8: a successful draw_ball on a concrete instance,
evaluated at a voxel outside the clipped ball, which keeps its value. -/
theorem claimC8_witness :
    covers gtW.kernel_shape arrW.shape (0, 0, 2) (0, 0, 9) = false ∧
    (Vol.mk arrW.shape (fun q => if covers gtW.kernel_shape arrW.shape (0, 0, 2) q then 7
        else arrW.data q)).data (0, 0, 9) = arrW.data (0, 0, 9) := by
  have hcW : cacheInv gtW.balls := fun e he => absurd he (List.not_mem_nil e)
  have hdb := @drawBall_ok_spec gtW arrW (0, 0, 2) 7
    hcW (Or.inl (by decide)) (Or.inl (by decide)) (Or.inl (by decide))
  have hfalse : covers gtW.kernel_shape arrW.shape (0, 0, 2) (0, 0, 9) = false := by decide
  exact ⟨hfalse, (claimC8_stamp_frame gtW arrW (0, 0, 2) 7 hcW _ _ hdb (0, 0, 9)).2 hfalse⟩

/-- Claim C5 counterexample: on an all-ones (1, 1, 1) volume with kernel
shape (201, 201, 201), the convolution the code performs (reflect boundary
mode, the scipy default) differs from the zero-padded convolution the spec
describes: reflection makes every kernel tap read the single voxel, while
zero padding keeps only the central tap. -/
theorem claimC5_counterexample :
    findCentresConvolved gtC5 onesVol111 (0, 0, 0) ≠
      convolveZeroPad onesVol111.shape (fun p => 5 * (onesVol111.data p : ℚ))
        (kshNat gtC5) (floatKernel (kshNat gtC5)) (0, 0, 0) := by
  rw [gtC5_kshNat]
  have hz : convolveZeroPad onesVol111.shape (fun p => 5 * (onesVol111.data p : ℚ))
      (201, 201, 201) (floatKernel (201, 201, 201)) (0, 0, 0) = 5 := convC5_zeropad
  rw [convC5_reflect, hz]
  have h2 := sumC5_ge_two
  intro heq
  linarith

/-- Claim C5 amended: centre detection convolves the combined volume,
first multiplied elementwise by the amplification constant 5, with the
float spherical kernel, producing a same-shape output whose boundary
handling is reflect (mirror) padding, the scipy.ndimage.convolve default,
not zero padding. -/
theorem claimC5_amended_reflect (g : GroundTruth) (data : Vol) (p : ℕ × ℕ × ℕ) :
    findCentresConvolved g data p =
      5 * ∑ j ∈ kernelIdx (kshNat g),
        floatKernel (kshNat g) j *
          (data.data (reflect3 data.shape (readPos p (kshNat g) j)) : ℚ) := by
  unfold findCentresConvolved convolveReflect
  rw [Finset.mul_sum]
  apply Finset.sum_congr rfl
  intro j _
  ring

/-- Claim C2: for same-shape marking volumes with disjoint nonzero
support and a valid sphere specification, synthesis succeeds, the output
has the shape of the inputs, every output voxel is 0 or a value of one of
the inputs, and all-zero inputs give the all-zero output. -/
theorem claimC2_output_labels (pos neg : Vol) (diam : ℚ) (res : ℚ × ℚ × ℚ) (md : ℕ)
    (hd : 0 < diam) (h1 : 0 < res.1) (h2 : 0 < res.2.1) (h3 : 0 < res.2.2)
    (hsh : neg.shape = pos.shape)
    (hdisj : ∀ p ∈ indicesOf pos.shape, pos.data p = 0 ∨ neg.data p = 0) :
    ∃ out g2, computeGt (mkGroundTruth pos neg diam res md) = (Except.ok out, g2) ∧
      out.shape = pos.shape ∧
      (∀ p ∈ indicesOf pos.shape, out.data p = 0 ∨
        ∃ q ∈ indicesOf pos.shape, out.data p = pos.data q ∨ out.data p = neg.data q) ∧
      ((∀ p, pos.data p = 0) → (∀ p, neg.data p = 0) → ∀ p, out.data p = 0) := by
  obtain ⟨combined, hadd, hcsh, hcdata, hcdecomp⟩ := npAdd_of_shape_eq hsh
  have hk1 : 1 ≤ (mkGroundTruth pos neg diam res md).kernel_shape.1 := by
    show 1 ≤ ⌈diam / res.1⌉
    have := Int.ceil_pos.mpr (div_pos hd h1)
    omega
  have hk2 : 1 ≤ (mkGroundTruth pos neg diam res md).kernel_shape.2.1 := by
    show 1 ≤ ⌈diam / res.2.1⌉
    have := Int.ceil_pos.mpr (div_pos hd h2)
    omega
  have hk3 : 1 ≤ (mkGroundTruth pos neg diam res md).kernel_shape.2.2 := by
    show 1 ≤ ⌈diam / res.2.2⌉
    have := Int.ceil_pos.mpr (div_pos hd h3)
    omega
  have hcg : computeGt (mkGroundTruth pos neg diam res md) =
      stampLoop (mkGroundTruth pos neg diam res md) ⟨combined.shape, fun _ => 0⟩ combined
        (findCentres (mkGroundTruth pos neg diam res md) combined) := by
    unfold computeGt
    rw [show npAdd (mkGroundTruth pos neg diam res md).pos_data
        (mkGroundTruth pos neg diam res md).neg_data = some combined from hadd]
  obtain ⟨v2, g2, heq, hker, hcinv2, hshape, hdata⟩ :=
    stampLoop_spec combined (findCentres (mkGroundTruth pos neg diam res md) combined)
      (mkGroundTruth pos neg diam res md) ⟨combined.shape, fun _ => 0⟩
      (fun e he => absurd he (List.not_mem_nil e)) hk1 hk2 hk3
      (fun c hc => @findCentres_bounds (mkGroundTruth pos neg diam res md) combined c hc)
  refine ⟨v2, g2, ?_, ?_, ?_, ?_⟩
  · rw [hcg]
    exact heq
  · exact hshape.trans hcsh
  · intro p hp
    rw [hdata p]
    cases hlast : lastCover (mkGroundTruth pos neg diam res md).kernel_shape
        (Vol.mk combined.shape fun _ => (0 : ℤ)).shape
        (findCentres (mkGroundTruth pos neg diam res md) combined) p with
    | none => left; rfl
    | some c =>
      right
      have hcmem : c ∈ findCentres (mkGroundTruth pos neg diam res md) combined := by
        unfold lastCover at hlast
        exact List.mem_reverse.mp (List.mem_of_find?_eq_some hlast)
      obtain ⟨hb1, hb2, hb3⟩ := findCentres_bounds hcmem
      rw [hcsh] at hb1 hb2 hb3
      have hcin : c ∈ indicesOf pos.shape := mem_indicesOf.mpr ⟨hb1, hb2, hb3⟩
      have hcd := hcdata c hb1 hb2 hb3
      refine ⟨c, hcin, ?_⟩
      rcases hdisj c hcin with hzero | hzero
      · right
        show combined.data c = neg.data c
        rw [hcd, hzero, zero_add]
      · left
        show combined.data c = pos.data c
        rw [hcd, hzero, add_zero]
  · intro hp hn p
    have hcz : ∀ q, combined.data q = 0 := by
      intro q
      obtain ⟨qa, qb, hq⟩ := hcdecomp q
      rw [hq, hp qa, hn qb]
      norm_num
    have hlist := @findCentres_of_zero (mkGroundTruth pos neg diam res md) combined hcz
    rw [hdata p, hlist]
    rfl

/-- Witness for claim C2 on all-zero (2, 2, 2) inputs. -/
theorem claimC2_witness :
    (0 : ℚ) < 300 ∧ (0 : ℚ) < 60 ∧
    (∀ p ∈ indicesOf (zerosVol (2, 2, 2)).shape,
      (zerosVol (2, 2, 2)).data p = 0 ∨ (zerosVol (2, 2, 2)).data p = 0) ∧
    (∃ out g2, computeGt (mkGroundTruth (zerosVol (2, 2, 2)) (zerosVol (2, 2, 2)) 300
        (60, 60, 60) 1) = (Except.ok out, g2) ∧
      out.shape = (zerosVol (2, 2, 2)).shape ∧
      (∀ p ∈ indicesOf (zerosVol (2, 2, 2)).shape, out.data p = 0 ∨
        ∃ q ∈ indicesOf (zerosVol (2, 2, 2)).shape,
          out.data p = (zerosVol (2, 2, 2)).data q ∨ out.data p = (zerosVol (2, 2, 2)).data q) ∧
      ((∀ p, (zerosVol (2, 2, 2)).data p = 0) → (∀ p, (zerosVol (2, 2, 2)).data p = 0) →
        ∀ p, out.data p = 0)) :=
  ⟨by norm_num, by norm_num, by decide,
    claimC2_output_labels (zerosVol (2, 2, 2)) (zerosVol (2, 2, 2)) 300 (60, 60, 60) 1
      (by norm_num) (by norm_num) (by norm_num) (by norm_num) rfl (by decide)⟩

/-- Claim C4: synthesis stamps the detected centres in detection order,
each with the label read from the combined volume at that centre, and at
every voxel the final value is the label of the last centre in that order
whose clipped ball covers the voxel, 0 if none does: last written wins. -/
theorem claimC4_last_write_wins (pos neg : Vol) (diam : ℚ) (res : ℚ × ℚ × ℚ) (md : ℕ)
    (hd : 0 < diam) (h1 : 0 < res.1) (h2 : 0 < res.2.1) (h3 : 0 < res.2.2)
    (hsh : neg.shape = pos.shape) :
    ∃ combined out g2,
      npAdd pos neg = some combined ∧
      computeGt (mkGroundTruth pos neg diam res md) = (Except.ok out, g2) ∧
      ∀ p ∈ indicesOf pos.shape,
        out.data p =
          match lastCover (mkGroundTruth pos neg diam res md).kernel_shape combined.shape
              (findCentres (mkGroundTruth pos neg diam res md) combined) p with
          | some c => combined.data c
          | none => 0 := by
  obtain ⟨combined, hadd, hcsh, hcdata, hcdecomp⟩ := npAdd_of_shape_eq hsh
  have hk1 : 1 ≤ (mkGroundTruth pos neg diam res md).kernel_shape.1 := by
    show 1 ≤ ⌈diam / res.1⌉
    have := Int.ceil_pos.mpr (div_pos hd h1)
    omega
  have hk2 : 1 ≤ (mkGroundTruth pos neg diam res md).kernel_shape.2.1 := by
    show 1 ≤ ⌈diam / res.2.1⌉
    have := Int.ceil_pos.mpr (div_pos hd h2)
    omega
  have hk3 : 1 ≤ (mkGroundTruth pos neg diam res md).kernel_shape.2.2 := by
    show 1 ≤ ⌈diam / res.2.2⌉
    have := Int.ceil_pos.mpr (div_pos hd h3)
    omega
  have hcg : computeGt (mkGroundTruth pos neg diam res md) =
      stampLoop (mkGroundTruth pos neg diam res md) ⟨combined.shape, fun _ => 0⟩ combined
        (findCentres (mkGroundTruth pos neg diam res md) combined) := by
    unfold computeGt
    rw [show npAdd (mkGroundTruth pos neg diam res md).pos_data
        (mkGroundTruth pos neg diam res md).neg_data = some combined from hadd]
  obtain ⟨v2, g2, heq, hker, hcinv2, hshape, hdata⟩ :=
    stampLoop_spec combined (findCentres (mkGroundTruth pos neg diam res md) combined)
      (mkGroundTruth pos neg diam res md) ⟨combined.shape, fun _ => 0⟩
      (fun e he => absurd he (List.not_mem_nil e)) hk1 hk2 hk3
      (fun c hc => @findCentres_bounds (mkGroundTruth pos neg diam res md) combined c hc)
  refine ⟨combined, v2, g2, hadd, ?_, ?_⟩
  · rw [hcg]
    exact heq
  · intro p _
    exact hdata p

/-- Witness for claim C4 on all-zero (1, 2, 2) inputs. -/
theorem claimC4_witness :
    (0 : ℚ) < 300 ∧ (0 : ℚ) < 60 ∧
    (∃ combined out g2,
      npAdd (zerosVol (1, 2, 2)) (zerosVol (1, 2, 2)) = some combined ∧
      computeGt (mkGroundTruth (zerosVol (1, 2, 2)) (zerosVol (1, 2, 2)) 300
        (60, 60, 60) 1) = (Except.ok out, g2) ∧
      ∀ p ∈ indicesOf (zerosVol (1, 2, 2)).shape,
        out.data p =
          match lastCover (mkGroundTruth (zerosVol (1, 2, 2)) (zerosVol (1, 2, 2)) 300
              (60, 60, 60) 1).kernel_shape combined.shape
              (findCentres (mkGroundTruth (zerosVol (1, 2, 2)) (zerosVol (1, 2, 2)) 300
                (60, 60, 60) 1) combined) p with
          | some c => combined.data c
          | none => 0) :=
  ⟨by norm_num, by norm_num,
    claimC4_last_write_wins (zerosVol (1, 2, 2)) (zerosVol (1, 2, 2)) 300 (60, 60, 60) 1
      (by norm_num) (by norm_num) (by norm_num) (by norm_num) rfl⟩
